import Mathlib

/-!
Shallow embedding of the fami.js NES emulator (TypeScript) in Lean 4,
with theorems settling the frozen claims C1..C10 about it.

Modelling conventions:
* JavaScript numbers that hold byte/word values are modelled as Nat.
  Where the source relies on 32-bit two's-complement behaviour of the
  JS bitwise operators, the translation is noted at the definition.
* Mutable objects become explicit state records; methods become
  functions from state to state (plus a result or an effect list).
* Uint8Array semantics are modelled exactly: out-of-range reads give
  undefined (which the source immediately masks, yielding 0), and
  out-of-range writes are dropped.
* Bus event emission and PPU-bus writes are modelled as an explicit
  effect list; drawing into the host pixel buffer (imageBytes /
  canvas) is outside the model, as no claim mentions pixel contents.
-/

namespace FamiJS

/-! ### util.ts -/

/-- src/util.ts getBit: returns 0 when the selected bit is clear, else 1. -/
def getBit (byte index : Nat) : Nat :=
  if byte &&& (1 <<< index) = 0 then 0 else 1

/-- src/util.ts setBit.  The clearing branch is JS
    byte AND (bitwise-not of (1 shl index)); on byte values below 2^32 the
    32-bit two's-complement bitwise-not is the same as xor with 0xffffffff. -/
def setBit (byte index : Nat) (bit : Bool) : Nat :=
  if bit then byte ||| (1 <<< index)
  else byte &&& (0xffffffff ^^^ (1 <<< index))

/-- A JS object field holding a byte store (Uint8Array index space or a bus
    address space); point update. -/
def storeWrite (m : Nat → Nat) (address byte : Nat) : Nat → Nat :=
  fun a => if a = address then byte else m a

/-- JS truthiness of a nullable number: null and 0 are falsy. -/
def jsTruthy : Option Nat → Bool
  | none => false
  | some v => v != 0

/-! ### cpu.ts : state and the operations the claims use -/

/-- CPU register and memory state.  The CPU bus is modelled as a flat byte
    store (the stack page 0x0100..0x01ff maps to system RAM in the NES
    wiring, which reads back what was written). -/
structure CPUState where
  a : Nat
  x : Nat
  y : Nat
  p : Nat
  sp : Nat
  pc : Nat
  cyclesRemaining : Nat
  mem : Nat → Nat

/-- CPU.pushStack: write the byte at 0x0100 or SP, then decrement SP with
    byte wraparound.  JS computes 0xff AND (sp - 1); for sp below 2^32 the
    two's-complement subtraction makes this (sp + 255) AND 0xff. -/
def cpuPushStack (s : CPUState) (byte : Nat) : CPUState :=
  let addressLo := s.sp
  let addressHi := 1 <<< 8
  let address := addressHi ||| addressLo
  { s with mem := storeWrite s.mem address byte, sp := (s.sp + 255) &&& 0xff }

/-- CPU.pullStack: pre-increment SP with byte wraparound, then read the byte
    at 0x0100 or SP. -/
def cpuPullStack (s : CPUState) : Nat × CPUState :=
  let sp' := (s.sp + 1) &&& 0xff
  let addressLo := sp'
  let addressHi := 1 <<< 8
  let address := addressHi ||| addressLo
  (s.mem address, { s with sp := sp' })

/-- CPU.rti: pull P, then PC low, then PC high; the source assigns p := newP
    and then sets statusInterruptDisable to false, i.e. clears bit 2. -/
def cpuRti (s : CPUState) : CPUState :=
  let pull1 := cpuPullStack s
  let newP := pull1.1
  let pull2 := cpuPullStack pull1.2
  let returnAddressLo := pull2.1
  let pull3 := cpuPullStack pull2.2
  let returnAddressHi := pull3.1 <<< 8
  let returnAddress := returnAddressLo ||| returnAddressHi
  { pull3.2 with p := setBit newP 2 false, pc := returnAddress, cyclesRemaining := 6 }

/-- CPU.getAddressImm: the byte after the opcode. -/
def cpuGetAddressImm (s : CPUState) : Nat :=
  0xffff &&& (s.pc + 1)

/-- CPU.adc_imm: add memory to accumulator with carry (immediate mode).
    The overflow test is JS (bitwise-not (oldA xor memory)) AND
    (oldA xor intermediateA) AND 0x80; on values below 2^32 the
    bitwise-not is xor with 0xffffffff. -/
def cpuAdcImm (s : CPUState) : CPUState :=
  let memory := s.mem (cpuGetAddressImm s)
  let oldA := s.a
  let intermediateA := oldA + memory + getBit s.p 0
  let newA := 0xff &&& intermediateA
  let p1 := setBit s.p 0 (decide (intermediateA > 0xff))
  let p2 := setBit p1 6
    (decide ((((oldA ^^^ memory) ^^^ 0xffffffff) &&& (oldA ^^^ intermediateA)) &&& (1 <<< 7) ≠ 0))
  let p3 := setBit p2 7 (decide (newA &&& (1 <<< 7) ≠ 0))
  let p4 := setBit p3 1 (decide (newA = 0))
  { s with a := newA, p := p4, pc := 0xffff &&& (s.pc + 2), cyclesRemaining := 2 }

/-! ### ppu.ts : register file, VRAM address logic, per-tick state machine -/

/-- Effects a PPU operation performs on the outside world: a write on the
    PPU bus, the nmi event emitted on the PPU bus, or presenting the
    framebuffer to the host canvas (ctx.putImageData in flush). -/
inductive PPUEffect where
  | busWrite (address byte : Nat)
  | nmi
  | flush
deriving DecidableEq

/-- PPU state.  The 8-byte register file (the Uint8Array bytes of size
    actualSize = 8) is regBytes as a fixed list of 8 bytes, indexed 0..7;
    indices are always reduced mod 8 by getRegister and setRegister, and
    like a typed array an access outside the allocated length reads 0
    after masking and drops the write.  The host pixel buffer
    (imageBytes) is outside the model. -/
structure PPUState where
  regBytes : List Nat
  vramAddress : Nat
  vramAddressLatch : Option Nat
  cycle : Nat
  scanline : Nat
  visibleX : Nat
  visibleY : Nat
  lastCycleIsVBlank : Bool
  lastCycleIsVisible : Bool
deriving DecidableEq

/-- PPU.getRegister on the register file itself: startAddress = 0x2000,
    actualSize = 8. -/
def regGet (regs : List Nat) (address : Nat) : Nat :=
  let index := (address - 0x2000) % 8
  0xff &&& regs.getD index 0

/-- PPU.setRegister on the register file itself.  The Uint8Array store
    coerces the value to a byte; since getRegister masks with 0xff on
    every read, storing the raw value is observationally the same, and
    callers always pass bytes. -/
def regSet (regs : List Nat) (address byte : Nat) : List Nat :=
  let index := (address - 0x2000) % 8
  regs.set index byte

/-- PPU.getRegister. -/
def getRegister (s : PPUState) (address : Nat) : Nat :=
  regGet s.regBytes address

/-- PPU.setRegister. -/
def setRegister (s : PPUState) (address byte : Nat) : PPUState :=
  { s with regBytes := regSet s.regBytes address byte }

/-- PPUCTRL bit 7. -/
def ppuctrlNMIEnable (s : PPUState) : Nat :=
  getBit (getRegister s 0x2000) 7

/-- PPUCTRL bit 2. -/
def ppuctrlIncrementMode (s : PPUState) : Nat :=
  getBit (getRegister s 0x2000) 2

/-- PPUCTRL bits 1:0 (nametable select mask 0b00000011). -/
def ppuctrlNametableSelect (s : PPUState) : Nat :=
  getRegister s 0x2000 &&& 0b00000011

/-- PPUSTATUS bit 7. -/
def ppustatusVBlank (s : PPUState) : Nat :=
  getBit (getRegister s 0x2002) 7

/-- Set PPUSTATUS bit 7. -/
def setPpustatusVBlank (s : PPUState) (bit : Bool) : PPUState :=
  setRegister s 0x2002 (setBit (getRegister s 0x2002) 7 bit)

/-- Set PPUSTATUS bit 6 (sprite zero hit). -/
def setPpustatusSpriteZeroHit (s : PPUState) (bit : Bool) : PPUState :=
  setRegister s 0x2002 (setBit (getRegister s 0x2002) 6 bit)

/-- NAMETABLE_SELECT_TO_BASE_ADDRESS: keys 0..3 (select is always masked
    with 0b11). -/
def nametableSelectToBase (select : Nat) : Nat :=
  if select = 0 then 0x2000
  else if select = 1 then 0x2400
  else if select = 2 then 0x2800
  else 0x2c00

/-- PPU.read (CPU side).  The source computes
    baseAddress = (address mod 0x2000) + 0x2000 and switches on it; for
    addresses in 0x2000..0x3fff this is the identity, so only the exact
    addresses 0x2002 and 0x2007 hit the PPUSTATUS and PPUDATA cases.
    The bus argument stands for ppuBus.read. -/
def ppuRead (bus : Nat → Nat) (s : PPUState) (address : Nat) : Nat × PPUState :=
  let baseAddress := (address % 0x2000) + 0x2000
  if baseAddress = 0x2002 then
    let byte := (0b11100000 &&& getRegister s 0x2002) + (0b00011111 &&& getRegister s 0x2007)
    let s1 := setPpustatusVBlank s false
    let s2 := { s1 with vramAddressLatch := none }
    (byte, s2)
  else if baseAddress = 0x2007 then
    let byte := getRegister s 0x2007
    let s1 := setRegister s 0x2007 (bus s.vramAddress)
    let byte := if 0x3f00 ≤ address then getRegister s1 0x2007 else byte
    let s2 := { s1 with
      vramAddress := s1.vramAddress + (if ppuctrlIncrementMode s1 ≠ 0 then 32 else 1) }
    (byte, s2)
  else (0x00, s)

/-- PPU.write (CPU side), with the same baseAddress computation as read.
    The PPUADDR case checks the latch with JS truthiness, so a stored
    latch byte 0x00 is treated like an empty latch. -/
def ppuWrite (s : PPUState) (address byte : Nat) : PPUState × List PPUEffect :=
  let baseAddress := (address % 0x2000) + 0x2000
  if baseAddress = 0x2000 then
    let previousSelect := ppuctrlNametableSelect s
    let s1 := setRegister s 0x2000 byte
    let effects := if ppuctrlNMIEnable s1 ≠ 0 ∧ ppustatusVBlank s1 ≠ 0
      then [PPUEffect.nmi] else []
    let baseNametableAddress := nametableSelectToBase (ppuctrlNametableSelect s1)
    let s2 := if ppuctrlNametableSelect s1 ≠ previousSelect
      then { s1 with vramAddress := baseNametableAddress } else s1
    (s2, effects)
  else if baseAddress = 0x2001 then
    (setRegister s 0x2001 byte, [])
  else if baseAddress = 0x2006 then
    let s1 := setRegister s 0x2006 byte
    if jsTruthy s1.vramAddressLatch then
      ({ s1 with vramAddress := (s1.vramAddressLatch.getD 0 <<< 8) + byte,
                 vramAddressLatch := none }, [])
    else
      ({ s1 with vramAddressLatch := some byte }, [])
  else if baseAddress = 0x2007 then
    let s1 := setRegister s 0x2007 byte
    let effects := [PPUEffect.busWrite s1.vramAddress byte]
    let s2 := { s1 with
      vramAddress := s1.vramAddress + (if ppuctrlIncrementMode s1 ≠ 0 then 32 else 1) }
    (s2, effects)
  else (s, [])

/-- PPU.isVBlank (the lower bound scanline at least 241; upper bound 262). -/
def ppuIsVBlank (s : PPUState) : Bool :=
  decide (241 ≤ s.scanline ∧ s.scanline ≤ 262)

/-- PPU.isVisible; the source also checks scanline at least 0 and cycle at
    least 1, the former being vacuous over Nat. -/
def ppuIsVisible (s : PPUState) : Bool :=
  decide (s.scanline ≤ 239 ∧ 1 ≤ s.cycle ∧ s.cycle ≤ 256)

/-- PPU.execute, written over the destructured state so terms stay linear.
    drawBackground only reads the PPU bus and writes the host pixel
    buffer, which is outside the model, so the visible branch keeps only
    its visibleX and visibleY updates.  The register writes are the
    setPpustatusSpriteZeroHit / setPpustatusVBlank accessors inlined on
    the register file; generateNMI and flush become effects.  The guard
    conditions read the same scanline and cycle throughout, as in the
    source (no branch changes them). -/
def ppuExecute : PPUState → PPUState × List PPUEffect
  | .mk regs vram latch cyc sl vx vy f1 f2 =>
    let isVisible := decide (sl ≤ 239 ∧ 1 ≤ cyc ∧ cyc ≤ 256)
    let vx1 := if isVisible then cyc - 1 else vx
    let vy1 := if isVisible then sl else vy
    let regs1 := if sl = 261 ∧ cyc = 0
      then regSet regs 0x2002 (setBit (regGet regs 0x2002) 6 false) else regs
    let regs2 := if sl = 0 ∧ cyc = 1
      then regSet regs1 0x2002 (setBit (regGet regs1 0x2002) 6 true) else regs1
    let regs3 := if sl = 241 ∧ cyc = 1
      then regSet regs2 0x2002 (setBit (regGet regs2 0x2002) 7 true) else regs2
    let effects := if sl = 241 ∧ cyc = 1
      then (if getBit (regGet regs3 0x2000) 7 ≠ 0 then [PPUEffect.nmi] else [])
        ++ [PPUEffect.flush]
      else []
    let regs4 := if sl = 262 ∧ cyc = 1
      then regSet regs3 0x2002 (setBit (regGet regs3 0x2002) 7 false) else regs3
    (PPUState.mk regs4 vram latch cyc sl vx1 vy1 f1 f2, effects)

/-- PPU.tick: execute the current dot, record the vblank/visible flags,
    then advance cycle and scanline with their wraparounds (the isVBlank
    and isVisible getters are inlined on the destructured fields). -/
def ppuTick (s : PPUState) : PPUState × List PPUEffect :=
  match ppuExecute s with
  | (.mk regs vram latch cyc sl vx vy _ _, effects) =>
    let lastVBlank := decide (241 ≤ sl ∧ sl ≤ 262)
    let lastVisible := decide (sl ≤ 239 ∧ 1 ≤ cyc ∧ cyc ≤ 256)
    let cyc1 := cyc + 1
    if 341 ≤ cyc1 then
      let sl1 := sl + 1
      if 262 ≤ sl1 then
        (PPUState.mk regs vram latch 0 0 vx vy lastVBlank lastVisible, effects)
      else
        (PPUState.mk regs vram latch 0 sl1 vx vy lastVBlank lastVisible, effects)
    else
      (PPUState.mk regs vram latch cyc1 sl vx vy lastVBlank lastVisible, effects)

/-- Iterate PPU ticks, discarding effects. -/
def ppuTickN : Nat → PPUState → PPUState
  | 0, s => s
  | n + 1, s => ppuTickN n (ppuTick s).1

/-- PPU state as constructed (registers zeroed, vramAddress at the
    nametable 0 base, empty latch) and after reset (counters zero). -/
def ppuInitial : PPUState :=
  { regBytes := [0, 0, 0, 0, 0, 0, 0, 0]
    vramAddress := 0x2000
    vramAddressLatch := none
    cycle := 0
    scanline := 0
    visibleX := 0
    visibleY := 0
    lastCycleIsVBlank := false
    lastCycleIsVisible := false }

/-! ### clock.ts -/

/-- One registered tick callback; the callback closure itself is replaced
    by a name that firing appends to the step trace. -/
structure TickCallback where
  name : String
  divider : Nat
  cyclesRemaining : Nat

/-- Clock.addTickCallback with explicit offset (the source defaults it
    to 0). -/
def addTickCallback (cbs : List TickCallback) (name : String) (divider offset : Nat) :
    List TickCallback :=
  cbs ++ [{ name := name, divider := divider, cyclesRemaining := (divider + offset) % divider }]

/-- Clock.step: walk the callbacks in registration order; fire each whose
    countdown reached zero, then reload its countdown.  Returns the new
    callback list and the names fired during this step, in firing order. -/
def clockStep : List TickCallback → List TickCallback × List String
  | [] => ([], [])
  | cb :: rest =>
    let fired := cb.cyclesRemaining ≤ 0
    let cb' := { cb with cyclesRemaining := (cb.divider + cb.cyclesRemaining - 1) % cb.divider }
    let step := clockStep rest
    (cb' :: step.1, (if fired then [cb.name] else []) ++ step.2)

/-- Run n clock steps, collecting each step's firing trace in order. -/
def clockTraces : Nat → List TickCallback → List (List String)
  | 0, _ => []
  | n + 1, cbs =>
    let step := clockStep cbs
    step.2 :: clockTraces n step.1

/-- The NES wiring: CPU registered first at divider 3 (offset omitted,
    hence 0), PPU second at divider 1 with offset PPU.CLOCK_OFFSET = 0. -/
def nesClockCallbacks : List TickCallback :=
  addTickCallback (addTickCallback [] "cpu" 3 0) "ppu" 1 0

/-- Number of times a given callback fired over a list of step traces. -/
def traceCount (traces : List (List String)) (name : String) : Nat :=
  (traces.map (fun t => t.count name)).sum

/-- The NES callback list with the CPU countdown at c (the PPU countdown
    is always 0). -/
def nesSt (c : Nat) : List TickCallback :=
  [{ name := "cpu", divider := 3, cyclesRemaining := c },
   { name := "ppu", divider := 1, cyclesRemaining := 0 }]

/-! ### bus.ts -/

/-- An addressable region as the bus sees it: its base address and its
    read behaviour (an abstract byte function standing for the
    subclass's read method). -/
structure BusRegion where
  startAddress : Nat
  contents : Nat → Nat

/-- Insert into a descending-sorted list (models the JS stable
    Array.sort with comparator b.startAddress - a.startAddress, applied
    by Bus.reset). -/
def busInsert (r : BusRegion) : List BusRegion → List BusRegion
  | [] => [r]
  | x :: xs =>
    if x.startAddress ≤ r.startAddress then r :: x :: xs else x :: busInsert r xs

/-- Bus.reset: sort the regions by startAddress descending. -/
def busSortDesc : List BusRegion → List BusRegion
  | [] => []
  | x :: xs => busInsert x (busSortDesc xs)

/-- Bus.read: first region (in the sorted order) with startAddress at most
    the address services the read; if the loop finishes without a match
    the JS function returns undefined, modelled as none. -/
def busRead : List BusRegion → Nat → Option Nat
  | [], _ => none
  | r :: rest, address =>
    if address < r.startAddress then busRead rest address
    else some (r.contents address)

/-- Bus.write: same selection loop; returns the region that receives the
    write, or none when the write is dropped. -/
def busWriteTarget : List BusRegion → Nat → Option BusRegion
  | [], _ => none
  | r :: rest, address =>
    if address < r.startAddress then busWriteTarget rest address
    else some r

/-! ### rom.ts (with Uint8Array semantics) -/

/-- A Uint8Array: fixed allocation size and contents. -/
structure U8 where
  size : Nat
  data : Nat → Nat

/-- new Uint8Array(size): zero-filled. -/
def u8new (size : Nat) : U8 :=
  { size := size, data := fun _ => 0 }

/-- Indexing: in-range gives the stored byte, out-of-range gives
    undefined. -/
def u8get (u : U8) (i : Nat) : Option Nat :=
  if i < u.size then some (u.data i) else none

/-- Element store: out-of-range writes are dropped; stored values are
    coerced to bytes. -/
def u8set (u : U8) (i v : Nat) : U8 :=
  if i < u.size then { u with data := storeWrite u.data i (v % 256) } else u

/-- JS 0xff AND x where x may be undefined: undefined coerces to 0. -/
def jsAnd255 : Option Nat → Nat
  | some v => 0xff &&& v
  | none => 0

/-- ROM region state. -/
structure ROMState where
  startAddress : Nat
  endAddress : Nat
  mirrorEndAddress : Nat
  actualSize : Nat
  mirrorSize : Nat
  bytes : U8

/-- ROM constructor without a mirrorEndAddress argument (it defaults to
    endAddress); allocates bytes of the Addressable actualSize. -/
def romNew (startAddress endAddress : Nat) : ROMState :=
  let actualSize := endAddress - startAddress + 1
  let mirrorSize := endAddress - startAddress + 1
  { startAddress := startAddress
    endAddress := endAddress
    mirrorEndAddress := endAddress
    actualSize := actualSize
    mirrorSize := mirrorSize
    bytes := u8new actualSize }

/-- ROM.setByte. -/
def romSetByte (r : ROMState) (address byte : Nat) : ROMState :=
  let index := (address - r.startAddress) % r.actualSize
  { r with bytes := u8set r.bytes index byte }

/-- ROM.load: set actualSize to the payload length, then store each byte
    (the backing Uint8Array is not reallocated). -/
def romLoad (r : ROMState) (startAddress : Nat) (bs : List Nat) : ROMState :=
  let r := { r with actualSize := bs.length }
  (List.range bs.length).foldl (fun acc i => romSetByte acc (startAddress + i) (bs.getD i 0)) r

/-- ROM.read. -/
def romRead (r : ROMState) (address : Nat) : Nat :=
  let index := (address - r.startAddress) % r.actualSize
  jsAnd255 (u8get r.bytes index)

/-! ### cartridge.ts -/

/-- stringToBytes applied to the iNES magic string. -/
def HEADER_INES_DECLARATION : List Nat := [0x4e, 0x45, 0x53, 0x1a]

/-- util compareBytes: equal length and equal contents. -/
def compareBytes : List Nat → List Nat → Bool
  | [], [] => true
  | a :: as, b :: bs => a == b && compareBytes as bs
  | _, _ => false

inductive INESMirroring where
  | vertical
  | horizontal
  | four
deriving DecidableEq

inductive INESTVSystem where
  | ntsc
  | pal
  | dual
deriving DecidableEq

structure INESHeader where
  prgSize : Nat
  chrSize : Nat
  battery : Bool
  trainer : Bool
  vsUnisystem : Bool
  pc10 : Bool
  ines2 : Bool
  prgRamSize : Nat
  prgRam : Bool
  busConflicts : Bool
  mapper : Nat
  mirror : INESMirroring
  tvSystem : INESTVSystem

/-- Cartridge.parseHeader on the first 16 header bytes; throwing on a bad
    magic becomes none. -/
def parseHeader (bytes : List Nat) : Option INESHeader :=
  if ¬ (compareBytes (bytes.take 4) HEADER_INES_DECLARATION = true) then none
  else
    let b := fun i => bytes.getD i 0
    let prgSize := b 4 * (16 * 1024)
    let chrSize := b 5 * (8 * 1024)
    let mirrorVertical := b 6 &&& 0b00000001 ≠ 0
    let battery := b 6 &&& 0b00000010 ≠ 0
    let trainer := b 6 &&& 0b00000100 ≠ 0
    let mirrorFourScreen := b 6 &&& 0b00001000 ≠ 0
    let mapperLo := (b 6 &&& 0b11110000) <<< 0
    let vsUnisystem := b 7 &&& 0b00000001 ≠ 0
    let pc10 := b 7 &&& 0b00000010 ≠ 0
    let ines2 := b 7 &&& 0b00001100 ≠ 0
    let mapperHi := (b 7 &&& 0b11110000) <<< 4
    let prgRamSize := (b 8 &&& 0b11111111) <<< 0
    let tvSystemPal := b 9 &&& 0b00000001 ≠ 0
    let tvSystemDual := b 10 &&& 0b00000001 ≠ 0
    let prgRam := b 10 &&& 0b00010000 ≠ 0
    let busConflicts := b 10 &&& 0b00100000 ≠ 0
    let mapper := mapperLo ||| mapperHi
    let mirror := if mirrorFourScreen then INESMirroring.four
      else if mirrorVertical then INESMirroring.vertical
      else INESMirroring.horizontal
    let tvSystem := if tvSystemDual then INESTVSystem.dual
      else if tvSystemPal then INESTVSystem.pal
      else INESTVSystem.ntsc
    some { prgSize := prgSize, chrSize := chrSize
           battery := decide battery, trainer := decide trainer
           vsUnisystem := decide vsUnisystem, pc10 := decide pc10
           ines2 := decide ines2, prgRamSize := prgRamSize
           prgRam := decide prgRam, busConflicts := decide busConflicts
           mapper := mapper, mirror := mirror, tvSystem := tvSystem }

/-! ### Concrete example states used by witnesses and counterexamples -/

/-- A concrete CPU state (post-reset register values, zeroed memory). -/
def cpuEx0 : CPUState :=
  { a := 0, x := 0, y := 0, p := 0x24, sp := 0xfd, pc := 0x8000
    cyclesRemaining := 0, mem := fun _ => 0 }

/-- Concrete state for ADC 0x7f + 0x01 with carry clear. -/
def cpuEx1 : CPUState :=
  { a := 0x7f, x := 0, y := 0, p := 0x00, sp := 0xfd, pc := 0x1000
    cyclesRemaining := 0, mem := fun _ => 0x01 }

/-- Concrete state for ADC 0xff + 0x01 with carry clear. -/
def cpuEx2 : CPUState :=
  { a := 0xff, x := 0, y := 0, p := 0x00, sp := 0xfd, pc := 0x1000
    cyclesRemaining := 0, mem := fun _ => 0x01 }

/-- A PPU-bus read function that returns 0 everywhere. -/
def ppuBusZero : Nat → Nat := fun _ => 0

/-- PPU state whose PPUDATA buffer holds 0xaa and whose vramAddress points
    into the palette range. -/
def ppuC2State : PPUState :=
  { ppuInitial with
    vramAddress := 0x3f00
    regBytes := [0, 0, 0, 0, 0, 0, 0, 0xaa] }

/-- PPU bus holding 0x55 at palette address 0x3f00. -/
def ppuC2Bus : Nat → Nat := fun a => if a = 0x3f00 then 0x55 else 0

/-- PPU state with the VBlank flag set and a PPUDATA buffer value 0x05. -/
def ppuC4State : PPUState :=
  { ppuInitial with
    regBytes := [0, 0, 0x80, 0, 0, 0, 0, 0x05] }

/-- PPU state at the VBlank start dot with NMI enabled. -/
def ppuC3State : PPUState :=
  { ppuInitial with
    scanline := 241
    cycle := 1
    regBytes := [0x80, 0, 0, 0, 0, 0, 0, 0] }

/-- A single bus region based at 0x4020 (like the NES PRG ROM region). -/
def busC9Region : BusRegion :=
  { startAddress := 0x4020, contents := fun _ => 0x42 }

/-- iNES header bytes with flags byte 6 = 0x10 and byte 7 = 0x00
    (a mapper-1 cartridge in the real iNES encoding). -/
def inesHdrEx : List Nat :=
  [0x4e, 0x45, 0x53, 0x1a, 1, 1, 0x10, 0x00, 0, 0, 0, 0, 0, 0, 0, 0]

/-- PPU state at the last dot of the pre-render scanline. -/
def ppuWrapState : PPUState :=
  { ppuInitial with cycle := 340, scanline := 261 }

/-- What one PPU tick does to the register file, as a function of the
    pre-tick scanline and cycle (closed form of the four
    register-touching branches of execute). -/
def ppuRegStep (sl cyc : Nat) (r : List Nat) : List Nat :=
  let r1 := if sl = 261 ∧ cyc = 0 then regSet r 0x2002 (setBit (regGet r 0x2002) 6 false) else r
  let r2 := if sl = 0 ∧ cyc = 1 then regSet r1 0x2002 (setBit (regGet r1 0x2002) 6 true) else r1
  let r3 := if sl = 241 ∧ cyc = 1 then regSet r2 0x2002 (setBit (regGet r2 0x2002) 7 true) else r2
  let r4 := if sl = 262 ∧ cyc = 1 then regSet r3 0x2002 (setBit (regGet r3 0x2002) 7 false) else r3
  r4

/-- The register file along the first frame of the reset trajectory:
    sprite-zero-hit (bit 6 of PPUSTATUS) is set by the tick that processes
    the dot (scanline 0, cycle 1) (tick 2), the VBlank flag (bit 7) is set
    by the tick that processes (241, 1) (tick 82183), and sprite-zero-hit
    is cleared by the tick that processes (261, 0) (tick 89002); nothing
    on the trajectory ever clears the VBlank flag. -/
def ppuRegsAt (n : Nat) : List Nat :=
  if n < 2 then [0, 0, 0, 0, 0, 0, 0, 0]
  else if n < 82183 then [0, 0, 0x40, 0, 0, 0, 0, 0]
  else if n < 89002 then [0, 0, 0xc0, 0, 0, 0, 0, 0]
  else [0, 0, 0x80, 0, 0, 0, 0, 0]

/-! ## Theorems

Bit-level helper lemmas first, then the claim theorems with their
witnesses and counterexamples. -/

theorem getBit_eq_testBit (b i : Nat) : getBit b i = (b.testBit i).toNat := by
  unfold getBit
  rw [Nat.one_shiftLeft, Nat.and_two_pow]
  cases h : b.testBit i <;> simp [h, (Nat.two_pow_pos i).ne']

theorem testBit_setBit (b i j : Nat) (x : Bool) (hj : j < 32) :
    (setBit b i x).testBit j = if j = i then x else b.testBit j := by
  unfold setBit
  have h32 : Nat.testBit 0xffffffff j = true := by
    have h : (0xffffffff : Nat) = 2 ^ 32 - 1 := by norm_num
    rw [h, Nat.testBit_two_pow_sub_one]
    simpa using hj
  by_cases h : j = i
  · subst h
    cases x with
    | false =>
      rw [if_neg (by simp)]
      rw [Nat.one_shiftLeft, Nat.testBit_land, Nat.testBit_xor, h32, Nat.testBit_two_pow]
      simp
    | true =>
      rw [if_pos rfl, Nat.one_shiftLeft, Nat.testBit_lor, Nat.testBit_two_pow]
      simp
  · have h' : ¬ i = j := fun hij => h hij.symm
    cases x with
    | false =>
      rw [if_neg (by simp)]
      rw [Nat.one_shiftLeft, Nat.testBit_land, Nat.testBit_xor, h32, Nat.testBit_two_pow]
      simp [h, h']
    | true =>
      rw [if_pos rfl, Nat.one_shiftLeft, Nat.testBit_lor, Nat.testBit_two_pow]
      simp [h, h']

theorem getBit_setBit_self (b i : Nat) (x : Bool) (hi : i < 32) :
    getBit (setBit b i x) i = if x then 1 else 0 := by
  rw [getBit_eq_testBit, testBit_setBit b i i x hi, if_pos rfl]
  cases x <;> rfl

theorem getBit_setBit_other (b i j : Nat) (x : Bool) (hj : j < 32) (h : j ≠ i) :
    getBit (setBit b i x) j = getBit b j := by
  rw [getBit_eq_testBit, getBit_eq_testBit, testBit_setBit b i j x hj, if_neg h]

theorem and255_eq_mod (n : Nat) : n &&& 255 = n % 256 := by
  have h := Nat.and_pow_two_sub_one_eq_mod n 8
  norm_num at h
  exact h

theorem and255_left_eq_mod (n : Nat) : 255 &&& n = n % 256 := by
  rw [Nat.land_comm]
  exact and255_eq_mod n

theorem getBit_and255 (x i : Nat) (h : i < 8) : getBit (255 &&& x) i = getBit x i := by
  rw [getBit_eq_testBit, getBit_eq_testBit, Nat.testBit_land]
  have h255 : Nat.testBit 255 i = true := by
    have h8 : (255 : Nat) = 2 ^ 8 - 1 := by norm_num
    rw [h8, Nat.testBit_two_pow_sub_one]
    simpa using h
  rw [h255, Bool.true_and]

set_option maxRecDepth 4096 in
theorem lor256_eq_add : ∀ x, x < 256 → 256 ||| x = 256 + x := by decide

set_option maxRecDepth 4096 in
theorem setBit2_false_byte : ∀ x, x < 256 → setBit x 2 false = x &&& 0xfb := by decide

/-- C5 (corrected): pushing PCH, then PCL, then P and then executing RTI
    restores the program counter to (PCH shl 8) or PCL and the stack
    pointer to its pre-push value, and sets the status register to the
    pushed P with the interrupt-disable bit (bit 2) cleared, i.e.
    P AND 0xfb.  (The claim that the status register equals the pushed P
    exactly fails: RTI clears interrupt-disable after restoring P; see the
    counterexample.) -/
theorem rti_after_pushes (s : CPUState) (PCH PCL P : Nat)
    (hsp : s.sp < 256) (hP : P < 256) :
    (cpuRti (cpuPushStack (cpuPushStack (cpuPushStack s PCH) PCL) P)).p = P &&& 0xfb ∧
    (cpuRti (cpuPushStack (cpuPushStack (cpuPushStack s PCH) PCL) P)).pc
      = (PCH <<< 8) ||| PCL ∧
    (cpuRti (cpuPushStack (cpuPushStack (cpuPushStack s PCH) PCL) P)).sp = s.sp := by
  obtain ⟨a, x, y, p, sp, pc, cyc, mem⟩ := s
  simp only at hsp
  have hsh : (1 : Nat) <<< 8 = 256 := by decide
  simp only [cpuRti, cpuPushStack, cpuPullStack, storeWrite, and255_eq_mod, hsh]
  have e0 : 256 ||| sp = 256 + sp := lor256_eq_add sp hsp
  have e1 : ∀ z : Nat, 256 ||| z % 256 = 256 + z % 256 := fun z =>
    lor256_eq_add (z % 256) (Nat.mod_lt _ (by norm_num))
  simp only [e0, e1]
  have q1 : ((((sp + 255) % 256 + 255) % 256 + 255) % 256 + 1) % 256
      = ((sp + 255) % 256 + 255) % 256 := by omega
  have q2 : (((sp + 255) % 256 + 255) % 256 + 1) % 256 = (sp + 255) % 256 := by omega
  have q3 : ((sp + 255) % 256 + 1) % 256 = sp := by omega
  simp only [q1, q2, q3]
  refine ⟨?_, ?_, trivial⟩
  · rw [if_pos trivial]
    exact setBit2_false_byte P hP
  · rw [if_neg (by omega), if_pos trivial, if_neg (by omega), if_neg (by omega),
      if_pos trivial]
    exact Nat.lor_comm PCL (PCH <<< 8)

/-- Witness for the corrected C5 theorem at a concrete state and bytes. -/
theorem rti_after_pushes_witness :
    cpuEx0.sp < 256 ∧ (0xff : Nat) < 256 ∧
    (cpuRti (cpuPushStack (cpuPushStack (cpuPushStack cpuEx0 0x12) 0x34) 0xff)).p = 0xfb ∧
    (cpuRti (cpuPushStack (cpuPushStack (cpuPushStack cpuEx0 0x12) 0x34) 0xff)).pc = 0x1234 ∧
    (cpuRti (cpuPushStack (cpuPushStack (cpuPushStack cpuEx0 0x12) 0x34) 0xff)).sp = cpuEx0.sp := by
  have h := rti_after_pushes cpuEx0 0x12 0x34 0xff (by decide) (by decide)
  exact ⟨by decide, by decide, h.1.trans (by decide), h.2.1.trans (by decide), h.2.2⟩

/-- C5 counterexample: pushing P = 0xff (interrupt-disable set) and
    executing RTI yields status 0xfb, not the pushed 0xff, because RTI
    clears the interrupt-disable bit after restoring P; PC and SP are
    restored as claimed. -/
theorem rti_status_not_restored_exactly :
    (cpuRti (cpuPushStack (cpuPushStack (cpuPushStack cpuEx0 0x12) 0x34) 0xff)).p ≠ 0xff ∧
    (cpuRti (cpuPushStack (cpuPushStack (cpuPushStack cpuEx0 0x12) 0x34) 0xff)).p = 0xfb ∧
    (cpuRti (cpuPushStack (cpuPushStack (cpuPushStack cpuEx0 0x12) 0x34) 0xff)).pc = 0x1234 ∧
    (cpuRti (cpuPushStack (cpuPushStack (cpuPushStack cpuEx0 0x12) 0x34) 0xff)).sp = 0xfd := by
  refine ⟨by decide, by decide, by decide, by decide⟩

theorem and128_eq_zero_iff (X : Nat) : X &&& 128 = 0 ↔ X.testBit 7 = false := by
  have h : (128 : Nat) = 2 ^ 7 := by norm_num
  rw [h, Nat.and_two_pow]
  cases hx : X.testBit 7 <;> simp [hx]

/-- The source's overflow test on the unmasked intermediate sum agrees with
    the specification's byte-level formula on the masked result. -/
theorem overflow_formula_eq (A M S : Nat) :
    ((((A ^^^ M) ^^^ 0xffffffff) &&& (A ^^^ S)) &&& (1 <<< 7) ≠ 0)
      ↔ ((((A ^^^ M) ^^^ 0xff) &&& (A ^^^ S % 256)) &&& 0x80 ≠ 0) := by
  have hsh : (1 : Nat) <<< 7 = 128 := by decide
  rw [hsh]
  refine not_congr ?_
  rw [and128_eq_zero_iff, and128_eq_zero_iff]
  have hmod : (S % 256).testBit 7 = S.testBit 7 := by
    have h256 : (256 : Nat) = 2 ^ 8 := by norm_num
    rw [h256, Nat.testBit_mod_two_pow]
    simp
  have hff : Nat.testBit 0xffffffff 7 = true := by decide
  have hf8 : Nat.testBit 0xff 7 = true := by decide
  simp only [Nat.testBit_land, Nat.testBit_xor, hmod, hff, hf8]

/-- C6: ADC immediate sets the accumulator to (A + M + carry) mod 256, the
    carry flag iff the unmasked sum exceeds 255, the overflow flag iff
    ((not (A xor M)) and (A xor result)) and 0x80 is nonzero, the negative
    flag to bit 7 of the result, and the zero flag iff the result is 0. -/
theorem adc_imm_spec (s : CPUState)
    (hA : s.a < 256) (hM : s.mem (cpuGetAddressImm s) < 256) :
    (cpuAdcImm s).a = (s.a + s.mem (cpuGetAddressImm s) + getBit s.p 0) % 256 ∧
    getBit (cpuAdcImm s).p 0
      = (if 255 < s.a + s.mem (cpuGetAddressImm s) + getBit s.p 0 then 1 else 0) ∧
    getBit (cpuAdcImm s).p 6
      = (if (((s.a ^^^ s.mem (cpuGetAddressImm s)) ^^^ 0xff)
            &&& (s.a ^^^ (s.a + s.mem (cpuGetAddressImm s) + getBit s.p 0) % 256))
            &&& 0x80 ≠ 0
         then 1 else 0) ∧
    getBit (cpuAdcImm s).p 7
      = (if ((s.a + s.mem (cpuGetAddressImm s) + getBit s.p 0) % 256) &&& 0x80 ≠ 0
         then 1 else 0) ∧
    getBit (cpuAdcImm s).p 1
      = (if (s.a + s.mem (cpuGetAddressImm s) + getBit s.p 0) % 256 = 0 then 1 else 0) := by
  have hsh : (1 : Nat) <<< 7 = 128 := by decide
  refine ⟨?_, ?_, ?_, ?_, ?_⟩
  · simp only [cpuAdcImm]
    exact and255_left_eq_mod _
  · simp only [cpuAdcImm]
    rw [getBit_setBit_other _ 1 0 _ (by norm_num) (by norm_num),
        getBit_setBit_other _ 7 0 _ (by norm_num) (by norm_num),
        getBit_setBit_other _ 6 0 _ (by norm_num) (by norm_num),
        getBit_setBit_self _ 0 _ (by norm_num)]
    simp [decide_eq_true_eq]
  · simp only [cpuAdcImm]
    rw [getBit_setBit_other _ 1 6 _ (by norm_num) (by norm_num),
        getBit_setBit_other _ 7 6 _ (by norm_num) (by norm_num),
        getBit_setBit_self _ 6 _ (by norm_num)]
    simp only [decide_eq_true_eq]
    rw [if_congr (overflow_formula_eq s.a (s.mem (cpuGetAddressImm s))
      (s.a + s.mem (cpuGetAddressImm s) + getBit s.p 0)) rfl rfl]
  · simp only [cpuAdcImm]
    rw [getBit_setBit_other _ 1 7 _ (by norm_num) (by norm_num),
        getBit_setBit_self _ 7 _ (by norm_num)]
    simp only [decide_eq_true_eq, and255_left_eq_mod, hsh]
  · simp only [cpuAdcImm]
    rw [getBit_setBit_self _ 1 _ (by norm_num)]
    simp only [decide_eq_true_eq, and255_left_eq_mod]

/-- Witness for the C6 theorem at the two boundary inputs the claim lists:
    ADC 0x7f + 0x01 (carry clear) gives 0x80 with V and N set, C and Z
    clear; ADC 0xff + 0x01 gives 0x00 with C and Z set, V and N clear. -/
theorem adc_imm_spec_witness :
    (cpuAdcImm cpuEx1).a = 0x80 ∧
    getBit (cpuAdcImm cpuEx1).p 6 = 1 ∧ getBit (cpuAdcImm cpuEx1).p 7 = 1 ∧
    getBit (cpuAdcImm cpuEx1).p 0 = 0 ∧ getBit (cpuAdcImm cpuEx1).p 1 = 0 ∧
    (cpuAdcImm cpuEx2).a = 0x00 ∧
    getBit (cpuAdcImm cpuEx2).p 0 = 1 ∧ getBit (cpuAdcImm cpuEx2).p 1 = 1 ∧
    getBit (cpuAdcImm cpuEx2).p 6 = 0 ∧ getBit (cpuAdcImm cpuEx2).p 7 = 0 := by
  have h1 := adc_imm_spec cpuEx1 (by decide) (by decide)
  have h2 := adc_imm_spec cpuEx2 (by decide) (by decide)
  exact ⟨h1.1.trans (by decide), h1.2.2.1.trans (by decide), h1.2.2.2.1.trans (by decide),
    h1.2.1.trans (by decide), h1.2.2.2.2.trans (by decide),
    h2.1.trans (by decide), h2.2.1.trans (by decide), h2.2.2.2.2.trans (by decide),
    h2.2.2.1.trans (by decide), h2.2.2.2.1.trans (by decide)⟩

/-- C1 (code bug): starting from a cleared latch, PPUADDR writes of
    hi = 0x00 then lo = 0x10 leave vramAddress unchanged at 0x2000 and
    leave the latch holding 0x10, instead of setting vramAddress to
    0x0010 and clearing the latch as the claim states: the second write's
    latch check uses JS truthiness, so a stored high byte 0x00 is
    indistinguishable from an empty latch.  With hi = 0x01 the double
    write composes the address exactly as claimed, which isolates the bug
    to the hi = 0x00 case. -/
theorem ppuaddr_high_byte_zero_lost :
    (ppuWrite (ppuWrite ppuInitial 0x2006 0x00).1 0x2006 0x10).1.vramAddress = 0x2000 ∧
    (ppuWrite (ppuWrite ppuInitial 0x2006 0x00).1 0x2006 0x10).1.vramAddress ≠ 0x0010 ∧
    (ppuWrite (ppuWrite ppuInitial 0x2006 0x00).1 0x2006 0x10).1.vramAddressLatch
      = some 0x10 ∧
    (ppuWrite (ppuWrite ppuInitial 0x2006 0x01).1 0x2006 0x10).1.vramAddress = 0x0110 ∧
    (ppuWrite (ppuWrite ppuInitial 0x2006 0x01).1 0x2006 0x10).1.vramAddressLatch
      = none := by
  exact ⟨by decide, by decide, by decide, by decide, by decide⟩

/-- C2 (code bug): with vramAddress = 0x3f00 (palette range), a PPUDATA
    buffer holding 0xaa and the PPU bus holding 0x55 at 0x3f00, a CPU read
    of 0x2007 returns the stale buffered 0xaa rather than the freshly
    fetched palette byte: the palette shortcut compares the CPU register
    address (0x2007) with 0x3f00 instead of vramAddress.  The buffer is
    refilled with the fetched 0x55 and vramAddress advances by 1
    (increment mode clear), as the claim states for the buffered path. -/
theorem ppudata_palette_read_stale :
    (ppuRead ppuC2Bus ppuC2State 0x2007).1 = 0xaa ∧
    (ppuRead ppuC2Bus ppuC2State 0x2007).1 ≠ ppuC2Bus ppuC2State.vramAddress ∧
    ppuC2Bus ppuC2State.vramAddress = 0x55 ∧
    getRegister (ppuRead ppuC2Bus ppuC2State 0x2007).2 0x2007 = 0x55 ∧
    (ppuRead ppuC2Bus ppuC2State 0x2007).2.vramAddress = 0x3f01 := by
  exact ⟨by decide, by decide, by decide, by decide, by decide⟩

/-- C4 (code bug): the register file is not mirrored across
    0x2000..0x3fff.  Reading the mirror address 0x200a of PPUSTATUS
    returns 0x00 and leaves the state unchanged (VBlank stays set), while
    reading 0x2002 itself returns the status byte 0x85 and clears VBlank:
    the baseAddress computation (address mod 0x2000) + 0x2000 is the
    identity on this window, so only the exact addresses 0x2000..0x2007
    reach the register cases. -/
theorem ppu_register_mirroring_absent :
    (ppuRead ppuBusZero ppuC4State 0x200a).1 = 0x00 ∧
    (ppuRead ppuBusZero ppuC4State 0x200a).2 = ppuC4State ∧
    (ppuRead ppuBusZero ppuC4State 0x2002).1 = 0x85 ∧
    ppustatusVBlank (ppuRead ppuBusZero ppuC4State 0x2002).2 = 0 ∧
    ppustatusVBlank (ppuRead ppuBusZero ppuC4State 0x200a).2 = 1 ∧
    (ppuRead ppuBusZero ppuC4State 0x200a).1 ≠ (ppuRead ppuBusZero ppuC4State 0x2002).1 ∧
    (ppuWrite ppuInitial 0x200e 0x21).1 = ppuInitial ∧
    (ppuWrite ppuInitial 0x2006 0x21).1.vramAddressLatch = some 0x21 := by
  exact ⟨by decide, by decide, by decide, by decide, by decide, by decide, by decide,
    by decide⟩

theorem ppuTick_cycle (s : PPUState) :
    (ppuTick s).1.cycle = if 341 ≤ s.cycle + 1 then 0 else s.cycle + 1 := by
  rcases s with ⟨regs, vram, latch, cyc, sl, vx, vy, f1, f2⟩
  simp only [ppuTick, ppuExecute, setPpustatusVBlank, setPpustatusSpriteZeroHit,
    setRegister, getRegister, ppuIsVisible, ppuIsVBlank, ppuctrlNMIEnable]
  split_ifs <;> rfl

theorem ppuTick_scanline (s : PPUState) :
    (ppuTick s).1.scanline =
      if 341 ≤ s.cycle + 1 then (if 262 ≤ s.scanline + 1 then 0 else s.scanline + 1)
      else s.scanline := by
  rcases s with ⟨regs, vram, latch, cyc, sl, vx, vy, f1, f2⟩
  simp only [ppuTick, ppuExecute, setPpustatusVBlank, setPpustatusSpriteZeroHit,
    setRegister, getRegister, ppuIsVisible, ppuIsVBlank, ppuctrlNMIEnable]
  split_ifs <;> rfl

theorem ppuTick_regBytes (s : PPUState) :
    (ppuTick s).1.regBytes = ppuRegStep s.scanline s.cycle s.regBytes := by
  rcases s with ⟨regs, vram, latch, cyc, sl, vx, vy, f1, f2⟩
  simp only [ppuTick, ppuExecute, ppuRegStep, setPpustatusVBlank, setPpustatusSpriteZeroHit,
    setRegister, getRegister, ppuIsVisible, ppuIsVBlank, ppuctrlNMIEnable]
  split_ifs <;> rfl

theorem ppuTickN_succ_last (n : Nat) (s : PPUState) :
    ppuTickN (n + 1) s = (ppuTick (ppuTickN n s)).1 := by
  induction n generalizing s with
  | zero => rfl
  | succ n ih =>
    calc ppuTickN (n + 1 + 1) s = ppuTickN (n + 1) (ppuTick s).1 := rfl
    _ = (ppuTick (ppuTickN n (ppuTick s).1)).1 := ih _
    _ = (ppuTick (ppuTickN (n + 1) s)).1 := rfl

/-- Trajectory of the PPU counters and register file over the first full
    frame from reset: the counters follow n mod 341 and n div 341 mod 262,
    and the register file follows ppuRegsAt. -/
theorem ppu_traj : ∀ n, n ≤ 89342 →
    (ppuTickN n ppuInitial).cycle = n % 341 ∧
    (ppuTickN n ppuInitial).scanline = n / 341 % 262 ∧
    (ppuTickN n ppuInitial).regBytes = ppuRegsAt n := by
  intro n
  induction n with
  | zero => intro _; exact ⟨rfl, rfl, rfl⟩
  | succ n ih =>
    intro hn
    obtain ⟨h1, h2, h3⟩ := ih (by omega)
    rw [ppuTickN_succ_last, ppuTick_cycle, ppuTick_scanline, ppuTick_regBytes, h1, h2, h3]
    refine ⟨by split_ifs <;> omega, by split_ifs <;> omega, ?_⟩
    by_cases e1 : n = 1
    · subst e1; decide
    · by_cases e2 : n = 82182
      · subst e2; decide
      · by_cases e3 : n = 89001
        · subst e3; decide
        · have hc1 : ¬(n / 341 % 262 = 261 ∧ n % 341 = 0) := by omega
          have hc2 : ¬(n / 341 % 262 = 0 ∧ n % 341 = 1) := by omega
          have hc3 : ¬(n / 341 % 262 = 241 ∧ n % 341 = 1) := by omega
          have hc4 : ¬(n / 341 % 262 = 262 ∧ n % 341 = 1) := by omega
          simp only [ppuRegStep, if_neg hc1, if_neg hc2, if_neg hc3, if_neg hc4]
          unfold ppuRegsAt
          split_ifs <;> first | rfl | omega

theorem regSet_length (r : List Nat) (a v : Nat) : (regSet r a v).length = r.length := by
  unfold regSet
  exact r.length_set _ _

theorem regGet_regSet_self (r : List Nat) (v : Nat) (h : 2 < r.length) :
    regGet (regSet r 0x2002 v) 0x2002 = 0xff &&& v := by
  unfold regGet regSet
  norm_num [List.getD_eq_getElem?_getD, List.getElem?_set_self, h]

theorem regGet_regSet_ctrl (r : List Nat) (v : Nat) :
    regGet (regSet r 0x2002 v) 0x2000 = regGet r 0x2000 := by
  unfold regGet regSet
  norm_num [List.getD_eq_getElem?_getD, List.getElem?_set_ne]

theorem getBit_and255_setBit6 (x : Nat) (b : Bool) :
    getBit (0xff &&& setBit x 6 b) 7 = getBit x 7 := by
  rw [getBit_and255 _ 7 (by norm_num), getBit_setBit_other _ 6 7 _ (by norm_num) (by norm_num)]

theorem getBit_and255_setBit7_true (x : Nat) :
    getBit (0xff &&& setBit x 7 true) 7 = 1 := by
  rw [getBit_and255 _ 7 (by norm_num), getBit_setBit_self _ 7 _ (by norm_num)]
  rfl

/-- On scanlines up to 261 a tick's register updates never clear the
    VBlank flag: the only clearing branch requires scanline = 262. -/
theorem ppuRegStep_vblank_preserved (sl cyc : Nat) (regs : List Nat)
    (hlen : 2 < regs.length) (hsl : sl ≤ 261)
    (hvb : getBit (regGet regs 0x2002) 7 = 1) :
    getBit (regGet (ppuRegStep sl cyc regs) 0x2002) 7 = 1 := by
  unfold ppuRegStep
  have hne : ¬(sl = 262 ∧ cyc = 1) := by omega
  simp only [if_neg hne]
  split_ifs <;>
    simp_all [regGet_regSet_self, regSet_length, getBit_and255_setBit6,
      getBit_and255_setBit7_true]

/-- A tick reports the same effect list that execute produced. -/
theorem ppuTick_effects (s : PPUState) : (ppuTick s).2 = (ppuExecute s).2 := by
  rcases h : ppuExecute s with ⟨s', effs⟩
  rcases s' with ⟨regs, vram, latch, cyc, sl, vx, vy, g1, g2⟩
  simp only [ppuTick, h]
  split_ifs <;> rfl

/-- C3 (corrected): at the dot (scanline 241, cycle 1) a tick sets the
    VBlank flag, emits nmi on the PPU bus exactly when PPUCTRL bit 7
    (NMI enable) is set, and presents the framebuffer (flush); the cycle
    counter stays in 0..340 and the scanline counter in 0..261, wrapping
    from (340, 261) to (0, 0); and on every in-range scanline a tick
    preserves a set VBlank flag.  (The claim that the flag is cleared at
    scanline = 262, cycle = 1 fails: the scanline counter never reaches
    262, so that branch is unreachable and the tick relation never clears
    VBlank; see the counterexample.) -/
theorem ppu_tick_vblank_spec (s : PPUState) :
    (s.scanline = 241 → s.cycle = 1 → s.regBytes.length = 8 →
      ppustatusVBlank (ppuTick s).1 = 1 ∧
      (PPUEffect.nmi ∈ (ppuTick s).2 ↔ ppuctrlNMIEnable s ≠ 0) ∧
      PPUEffect.flush ∈ (ppuTick s).2) ∧
    (s.cycle ≤ 340 → s.scanline ≤ 261 →
      (ppuTick s).1.cycle ≤ 340 ∧ (ppuTick s).1.scanline ≤ 261) ∧
    (s.cycle = 340 → s.scanline = 261 →
      (ppuTick s).1.cycle = 0 ∧ (ppuTick s).1.scanline = 0) ∧
    (s.scanline ≤ 261 → s.regBytes.length = 8 → ppustatusVBlank s = 1 →
      ppustatusVBlank (ppuTick s).1 = 1) := by
  refine ⟨?_, ?_, ?_, ?_⟩
  · intro hsl hc hlen
    have hreg := ppuTick_regBytes s
    have heff := ppuTick_effects s
    refine ⟨?_, ?_, ?_⟩
    · show getBit (regGet (ppuTick s).1.regBytes 0x2002) 7 = 1
      rw [hreg, hsl, hc]
      unfold ppuRegStep
      norm_num
      rw [regGet_regSet_self _ _ (by omega)]
      exact getBit_and255_setBit7_true _
    · rw [heff]
      rcases s with ⟨regs, vram, latch, cyc, sl, vx, vy, f1, f2⟩
      simp only at hsl hc hlen
      subst hsl; subst hc
      show PPUEffect.nmi ∈ (ppuExecute (PPUState.mk regs vram latch 1 241 vx vy f1 f2)).2 ↔ _
      simp only [ppuExecute]
      norm_num
      rw [regGet_regSet_ctrl]
      show _ ↔ getBit (regGet regs 0x2000) 7 ≠ 0
      by_cases h : getBit (regGet regs 0x2000) 7 ≠ 0 <;> simp [h]
    · rw [heff]
      rcases s with ⟨regs, vram, latch, cyc, sl, vx, vy, f1, f2⟩
      simp only at hsl hc
      subst hsl; subst hc
      simp only [ppuExecute]
      norm_num
  · intro h1 h2
    rw [ppuTick_cycle, ppuTick_scanline]
    constructor <;> split_ifs <;> omega
  · intro h1 h2
    rw [ppuTick_cycle, ppuTick_scanline]
    constructor <;> split_ifs <;> omega
  · intro hsl hlen hvb
    show getBit (regGet (ppuTick s).1.regBytes 0x2002) 7 = 1
    rw [ppuTick_regBytes s]
    exact ppuRegStep_vblank_preserved s.scanline s.cycle s.regBytes (by omega) hsl hvb

/-- Witness for the corrected C3 theorem: at the VBlank start dot with
    NMI enabled the tick sets VBlank and emits nmi and flush, and the
    (340, 261) dot wraps to (0, 0). -/
theorem ppu_tick_vblank_spec_witness :
    (ppustatusVBlank (ppuTick ppuC3State).1 = 1 ∧
      (PPUEffect.nmi ∈ (ppuTick ppuC3State).2 ↔ ppuctrlNMIEnable ppuC3State ≠ 0) ∧
      PPUEffect.flush ∈ (ppuTick ppuC3State).2) ∧
    ((ppuTick ppuWrapState).1.cycle = 0 ∧ (ppuTick ppuWrapState).1.scanline = 0) := by
  have h1 := (ppu_tick_vblank_spec ppuC3State).1 (by decide) (by decide) (by decide)
  have h2 := (ppu_tick_vblank_spec ppuWrapState).2.2.1 (by decide) (by decide)
  exact ⟨h1, h2⟩

/-- C3 counterexample: running one whole frame (89342 ticks) from reset,
    the counters return to (cycle 0, scanline 0) having passed the claimed
    clear point, yet the VBlank flag set at (241, 1) is still set: the
    clearing branch tests scanline = 262, which the wrapping counter never
    reaches, so VBlank is never cleared by the tick relation as the claim
    states it is. -/
theorem ppu_vblank_not_cleared_by_frame_end :
    (ppuTickN 89342 ppuInitial).cycle = 0 ∧
    (ppuTickN 89342 ppuInitial).scanline = 0 ∧
    ppustatusVBlank (ppuTickN 89342 ppuInitial) = 1 := by
  obtain ⟨h1, h2, h3⟩ := ppu_traj 89342 (by omega)
  refine ⟨by rw [h1], by rw [h2], ?_⟩
  show getBit (regGet (ppuTickN 89342 ppuInitial).regBytes 0x2002) 7 = 1
  rw [h3]
  decide

theorem nesClockCallbacks_eq : nesClockCallbacks = nesSt 0 := rfl

theorem clockStep_nes (c : Nat) (hc : c < 3) :
    clockStep (nesSt c)
      = (nesSt ((c + 2) % 3), if c = 0 then ["cpu", "ppu"] else ["ppu"]) := by
  interval_cases c <;> rfl

theorem clockTraces_nes : ∀ n c, c < 3 →
    clockTraces n (nesSt c) =
      (List.range n).map (fun k => if k % 3 = c then ["cpu", "ppu"] else ["ppu"]) := by
  intro n
  induction n with
  | zero => intro c hc; rfl
  | succ n ih =>
    intro c hc
    show (clockStep (nesSt c)).2 :: clockTraces n (clockStep (nesSt c)).1 = _
    interval_cases c
    · show ["cpu", "ppu"] :: clockTraces n (nesSt 2) = _
      rw [ih 2 (by omega), List.range_succ_eq_map, List.map_cons, List.map_map]
      congr 1
      exact List.map_congr_left fun k _ => by
        simp only [Function.comp_apply]
        split_ifs <;> first | rfl | omega
    · show ["ppu"] :: clockTraces n (nesSt 0) = _
      rw [ih 0 (by omega), List.range_succ_eq_map, List.map_cons, List.map_map]
      congr 1
      exact List.map_congr_left fun k _ => by
        simp only [Function.comp_apply]
        split_ifs <;> first | rfl | omega
    · show ["ppu"] :: clockTraces n (nesSt 1) = _
      rw [ih 1 (by omega), List.range_succ_eq_map, List.map_cons, List.map_map]
      congr 1
      exact List.map_congr_left fun k _ => by
        simp only [Function.comp_apply]
        split_ifs <;> first | rfl | omega

theorem traceCount_append (l1 l2 : List (List String)) (name : String) :
    traceCount (l1 ++ l2) name = traceCount l1 name + traceCount l2 name := by
  unfold traceCount
  rw [List.map_append, List.sum_append]

theorem traceCount_nes_cpu (n : Nat) :
    traceCount (clockTraces n nesClockCallbacks) "cpu" = (n + 2) / 3 := by
  rw [nesClockCallbacks_eq, clockTraces_nes n 0 (by omega)]
  induction n with
  | zero => rfl
  | succ n ih =>
    rw [List.range_succ, List.map_append, traceCount_append, ih]
    by_cases h : n % 3 = 0
    · rw [List.map_singleton, if_pos h]
      have h1 : traceCount [["cpu", "ppu"]] "cpu" = 1 := by decide
      rw [h1]
      omega
    · rw [List.map_singleton, if_neg h]
      have h1 : traceCount [["ppu"]] "cpu" = 0 := by decide
      rw [h1]
      omega

theorem traceCount_nes_ppu (n : Nat) :
    traceCount (clockTraces n nesClockCallbacks) "ppu" = n := by
  rw [nesClockCallbacks_eq, clockTraces_nes n 0 (by omega)]
  induction n with
  | zero => rfl
  | succ n ih =>
    rw [List.range_succ, List.map_append, traceCount_append, ih]
    by_cases h : n % 3 = 0
    · rw [List.map_singleton, if_pos h]
      have h1 : traceCount [["cpu", "ppu"]] "ppu" = 1 := by decide
      rw [h1]
    · rw [List.map_singleton, if_neg h]
      have h1 : traceCount [["ppu"]] "ppu" = 1 := by decide
      rw [h1]

/-- C7: over any window of n steps of the NES clock wiring (CPU callback
    registered first at divider 3, PPU second at divider 1, offset 0) the
    PPU callback fires exactly n times and the CPU callback
    ceil(n / 3) = (n + 2) / 3 times, which lies between floor(n / 3) and
    floor(n / 3) + 1 (the 1 : 3 CPU-to-PPU ratio); and in any step where
    both fire the CPU callback runs before the PPU callback (the
    per-step trace is ["cpu", "ppu"] when k mod 3 = 0, else ["ppu"]). -/
theorem clock_ratio_and_order (n : Nat) :
    traceCount (clockTraces n nesClockCallbacks) "ppu" = n ∧
    traceCount (clockTraces n nesClockCallbacks) "cpu" = (n + 2) / 3 ∧
    n / 3 ≤ (n + 2) / 3 ∧ (n + 2) / 3 ≤ n / 3 + 1 ∧
    ∀ k, k < n → (clockTraces n nesClockCallbacks).getD k [] =
      if k % 3 = 0 then ["cpu", "ppu"] else ["ppu"] := by
  refine ⟨traceCount_nes_ppu n, traceCount_nes_cpu n, by omega, by omega, ?_⟩
  intro k hk
  rw [nesClockCallbacks_eq, clockTraces_nes n 0 (by omega)]
  rw [List.getD_eq_getElem?_getD, List.getElem?_map, List.getElem?_range hk]
  rfl

/-- Witness for the C7 theorem over a window of 7 steps. -/
theorem clock_ratio_and_order_witness :
    traceCount (clockTraces 7 nesClockCallbacks) "ppu" = 7 ∧
    traceCount (clockTraces 7 nesClockCallbacks) "cpu" = 3 ∧
    (clockTraces 7 nesClockCallbacks).getD 3 [] = ["cpu", "ppu"] ∧
    (clockTraces 7 nesClockCallbacks).getD 4 [] = ["ppu"] := by
  have h := clock_ratio_and_order 7
  exact ⟨h.1, h.2.1.trans (by decide), (h.2.2.2.2 3 (by decide)).trans (by decide),
    (h.2.2.2.2 4 (by decide)).trans (by decide)⟩

/-- C8 (code bug): on a valid header with flags byte 6 = 0x10 and byte
    7 = 0x00 the parser reports mapper 16, while the iNES nibble split of
    the claim, (byte6 shr 4) or (byte7 and 0xf0), gives mapper 1: the
    source composes (byte6 and 0xf0) or ((byte7 and 0xf0) shl 4), never
    shifting the low nibble down into place. -/
theorem ines_mapper_not_nibble_split :
    (parseHeader inesHdrEx).map (fun h => h.mapper) = some 16 ∧
    ((0x10 >>> 4) ||| (0x00 &&& 0xf0) : Nat) = 1 ∧
    (parseHeader inesHdrEx).map (fun h => h.mapper) ≠ some 1 := by
  exact ⟨by decide, by decide, by decide⟩

theorem busInsert_mem (r x : BusRegion) (l : List BusRegion) :
    x ∈ busInsert r l ↔ x = r ∨ x ∈ l := by
  induction l with
  | nil => simp [busInsert]
  | cons a as ih =>
    unfold busInsert
    split_ifs with h
    · simp [List.mem_cons]
    · simp only [List.mem_cons, ih]
      tauto

theorem busSortDesc_mem (x : BusRegion) (l : List BusRegion) :
    x ∈ busSortDesc l ↔ x ∈ l := by
  induction l with
  | nil => simp [busSortDesc]
  | cons a as ih =>
    unfold busSortDesc
    rw [busInsert_mem]
    simp only [List.mem_cons, ih]

theorem busInsert_sorted (r : BusRegion) (l : List BusRegion)
    (h : l.Pairwise (fun a b => b.startAddress ≤ a.startAddress)) :
    (busInsert r l).Pairwise (fun a b => b.startAddress ≤ a.startAddress) := by
  induction l with
  | nil => simp [busInsert]
  | cons a as ih =>
    rw [List.pairwise_cons] at h
    unfold busInsert
    split_ifs with hle
    · rw [List.pairwise_cons]
      refine ⟨?_, List.pairwise_cons.mpr h⟩
      intro y hy
      rcases List.mem_cons.mp hy with he | hm
      · exact he ▸ hle
      · exact le_trans (h.1 y hm) hle
    · rw [List.pairwise_cons]
      refine ⟨?_, ih h.2⟩
      intro y hy
      rcases (busInsert_mem r y as).mp hy with he | hm
      · exact he ▸ le_of_not_le hle
      · exact h.1 y hm

theorem busSortDesc_sorted (l : List BusRegion) :
    (busSortDesc l).Pairwise (fun a b => b.startAddress ≤ a.startAddress) := by
  induction l with
  | nil => exact List.Pairwise.nil
  | cons a as ih => exact busInsert_sorted a (busSortDesc as) ih

/-- Dispatch on a descending-sorted region list: a read below every base
    falls off the loop (undefined, here none) and the write reaches no
    region; otherwise the first match is a maximal-base region at or
    below the address. -/
theorem busDispatch_sorted (l : List BusRegion) (a : Nat)
    (hsort : l.Pairwise (fun x y => y.startAddress ≤ x.startAddress)) :
    ((∀ r ∈ l, a < r.startAddress) → busRead l a = none ∧ busWriteTarget l a = none) ∧
    (∀ r0 ∈ l, r0.startAddress ≤ a →
      ∃ r, busWriteTarget l a = some r ∧ busRead l a = some (r.contents a) ∧
        r ∈ l ∧ r.startAddress ≤ a ∧
        ∀ r' ∈ l, r'.startAddress ≤ a → r'.startAddress ≤ r.startAddress) := by
  induction l with
  | nil =>
    exact ⟨fun _ => ⟨rfl, rfl⟩, by simp⟩
  | cons x xs ih =>
    rw [List.pairwise_cons] at hsort
    obtain ⟨hx, hxs⟩ := hsort
    have ihx := ih hxs
    constructor
    · intro hall
      have hxa : a < x.startAddress := hall x (List.mem_cons_self x xs)
      unfold busRead busWriteTarget
      rw [if_pos hxa, if_pos hxa]
      exact ihx.1 fun r hr => hall r (List.mem_cons_of_mem x hr)
    · intro r0 hr0 hra
      by_cases hxa : a < x.startAddress
      · have hr0xs : r0 ∈ xs := by
          rcases List.mem_cons.mp hr0 with he | hm
          · exact absurd hra (by rw [he]; omega)
          · exact hm
        obtain ⟨r, h1, h2, h3, h4, h5⟩ := ihx.2 r0 hr0xs hra
        refine ⟨r, ?_, ?_, List.mem_cons_of_mem x h3, h4, ?_⟩
        · unfold busWriteTarget
          rw [if_pos hxa]
          exact h1
        · unfold busRead
          rw [if_pos hxa]
          exact h2
        · intro r' hr' hle
          rcases List.mem_cons.mp hr' with he | hm
          · exact absurd hle (by rw [he]; omega)
          · exact h5 r' hm hle
      · push_neg at hxa
        refine ⟨x, ?_, ?_, List.mem_cons_self x xs, hxa, ?_⟩
        · unfold busWriteTarget
          rw [if_neg (by omega)]
        · unfold busRead
          rw [if_neg (by omega)]
        · intro r' hr' _
          rcases List.mem_cons.mp hr' with he | hm
          · exact he ▸ le_refl _
          · exact hx r' hm

/-- C9 (corrected): after Bus.reset sorts the regions by base descending,
    an access at an address below every region's base is unmapped: the
    read loop falls through and the JS function returns undefined -
    modelled as none, and in particular not the byte 0x00 the claim
    names - while the write is dropped without reaching any region;
    otherwise both operations are serviced by a region of maximal
    startAddress at most the address. -/
theorem bus_dispatch_spec (regions : List BusRegion) (a : Nat) :
    ((∀ r ∈ regions, a < r.startAddress) →
      busRead (busSortDesc regions) a = none ∧
      busWriteTarget (busSortDesc regions) a = none) ∧
    (∀ r0 ∈ regions, r0.startAddress ≤ a →
      ∃ r, busWriteTarget (busSortDesc regions) a = some r ∧
        busRead (busSortDesc regions) a = some (r.contents a) ∧
        r ∈ regions ∧ r.startAddress ≤ a ∧
        ∀ r' ∈ regions, r'.startAddress ≤ a → r'.startAddress ≤ r.startAddress) := by
  have h := busDispatch_sorted (busSortDesc regions) a (busSortDesc_sorted regions)
  constructor
  · intro hall
    exact h.1 fun r hr => hall r ((busSortDesc_mem r regions).mp hr)
  · intro r0 hr0 hra
    obtain ⟨r, h1, h2, h3, h4, h5⟩ := h.2 r0 ((busSortDesc_mem r0 regions).mpr hr0) hra
    exact ⟨r, h1, h2, (busSortDesc_mem r regions).mp h3, h4,
      fun r' hr' hle => h5 r' ((busSortDesc_mem r' regions).mpr hr') hle⟩

/-- Witness for the corrected C9 theorem on the single PRG-like region:
    address 0x10 is below the base, so the read yields none and the write
    is dropped; address 0x5000 is serviced by the region. -/
theorem bus_dispatch_spec_witness :
    (busRead (busSortDesc [busC9Region]) 0x10 = none ∧
      busWriteTarget (busSortDesc [busC9Region]) 0x10 = none) ∧
    (∃ r, busWriteTarget (busSortDesc [busC9Region]) 0x5000 = some r ∧
      busRead (busSortDesc [busC9Region]) 0x5000 = some (r.contents 0x5000) ∧
      r ∈ [busC9Region] ∧ r.startAddress ≤ 0x5000 ∧
      ∀ r' ∈ [busC9Region], r'.startAddress ≤ 0x5000 →
        r'.startAddress ≤ r.startAddress) := by
  constructor
  · refine (bus_dispatch_spec [busC9Region] 0x10).1 ?_
    intro r hr
    rw [List.mem_singleton.mp hr]
    norm_num [busC9Region]
  · exact (bus_dispatch_spec [busC9Region] 0x5000).2 busC9Region
      (List.mem_singleton.mpr rfl) (by norm_num [busC9Region])

/-- C9 counterexample: with the single region based at 0x4020, the read
    at 0x10 matches no region and returns undefined (none), which is not
    the sentinel byte 0x00 the claim asserts. -/
theorem bus_unmapped_read_not_zero :
    busRead (busSortDesc [busC9Region]) 0x10 = none ∧
    busRead (busSortDesc [busC9Region]) 0x10 ≠ some 0x00 := by
  refine ⟨rfl, ?_⟩
  intro h
  rw [show busRead (busSortDesc [busC9Region]) 0x10 = none from rfl] at h
  exact Option.noConfusion h

theorem romSetByte_fields (r : ROMState) (address byte : Nat) :
    (romSetByte r address byte).startAddress = r.startAddress ∧
    (romSetByte r address byte).actualSize = r.actualSize ∧
    (romSetByte r address byte).bytes.size = r.bytes.size := by
  unfold romSetByte u8set
  dsimp only
  refine ⟨rfl, rfl, ?_⟩
  split_ifs <;> rfl

theorem romSetByte_data (r : ROMState) (address byte : Nat)
    (hok : (address - r.startAddress) % r.actualSize < r.bytes.size) :
    (romSetByte r address byte).bytes.data
      = storeWrite r.bytes.data ((address - r.startAddress) % r.actualSize) (byte % 256) := by
  unfold romSetByte u8set
  dsimp only
  rw [if_pos hok]

theorem romRead_eq (r : ROMState) (address : Nat) :
    romRead r address
      = jsAnd255 (u8get r.bytes ((address - r.startAddress) % r.actualSize)) := rfl

theorem u8get_eq (u : U8) (i : Nat) :
    u8get u i = if i < u.size then some (u.data i) else none := rfl

theorem romLoadLoop_fields (sA : Nat) (bs : List Nat) (r0 : ROMState) (n : Nat) :
    ((List.range n).foldl (fun acc k => romSetByte acc (sA + k) (bs.getD k 0)) r0).startAddress
      = r0.startAddress ∧
    ((List.range n).foldl (fun acc k => romSetByte acc (sA + k) (bs.getD k 0)) r0).actualSize
      = r0.actualSize ∧
    ((List.range n).foldl (fun acc k => romSetByte acc (sA + k) (bs.getD k 0)) r0).bytes.size
      = r0.bytes.size := by
  induction n with
  | zero => exact ⟨rfl, rfl, rfl⟩
  | succ n ih =>
    rw [List.range_succ, List.foldl_append]
    simp only [List.foldl_cons, List.foldl_nil]
    obtain ⟨i1, i2, i3⟩ := ih
    have h := romSetByte_fields
      ((List.range n).foldl (fun acc k => romSetByte acc (sA + k) (bs.getD k 0)) r0)
      (sA + n) (bs.getD n 0)
    exact ⟨h.1.trans i1, h.2.1.trans i2, h.2.2.trans i3⟩

theorem mod_add_left_inj (len c i j : Nat) (hi : i < len) (hj : j < len)
    (h : (c + i) % len = (c + j) % len) : i = j := by
  have h2 : i ≡ j [MOD len] := Nat.ModEq.add_left_cancel' c h
  have h3 : i % len = j % len := h2
  rwa [Nat.mod_eq_of_lt hi, Nat.mod_eq_of_lt hj] at h3

/-- Last-writer lemma for the ROM.load loop: when the payload fits the
    backing array, the byte for logical position i ends up at buffer
    index (sA - startAddress + i) mod payload length. -/
theorem romLoadLoop_get (r0 : ROMState) (sA : Nat) (bs : List Nat)
    (hsize : r0.actualSize = bs.length)
    (hcap : bs.length ≤ r0.bytes.size) (hs : r0.startAddress ≤ sA) :
    ∀ n, n ≤ bs.length → ∀ i, i < n →
      ((List.range n).foldl (fun acc k => romSetByte acc (sA + k) (bs.getD k 0)) r0).bytes.data
        ((sA - r0.startAddress + i) % bs.length) = bs.getD i 0 % 256 := by
  intro n
  induction n with
  | zero => intro _ i hi; exact absurd hi (Nat.not_lt_zero i)
  | succ n ih =>
    intro hn i hi
    rw [List.range_succ, List.foldl_append]
    simp only [List.foldl_cons, List.foldl_nil]
    obtain ⟨f1, f2, f3⟩ := romLoadLoop_fields sA bs r0 n
    have hlen : 0 < bs.length := by omega
    have hb1 : (sA - r0.startAddress + n) % bs.length < bs.length :=
      Nat.mod_lt _ (by omega)
    have hidx : sA + n -
        ((List.range n).foldl (fun acc k => romSetByte acc (sA + k) (bs.getD k 0))
          r0).startAddress = sA - r0.startAddress + n := by
      rw [f1]; omega
    have hok : (sA + n -
        ((List.range n).foldl (fun acc k => romSetByte acc (sA + k) (bs.getD k 0))
          r0).startAddress) %
        ((List.range n).foldl (fun acc k => romSetByte acc (sA + k) (bs.getD k 0))
          r0).actualSize <
        ((List.range n).foldl (fun acc k => romSetByte acc (sA + k) (bs.getD k 0))
          r0).bytes.size := by
      rw [hidx, f2, f3, hsize]; omega
    rw [romSetByte_data _ _ _ hok, hidx, f2, hsize]
    unfold storeWrite
    by_cases hin : i = n
    · subst hin
      rw [if_pos rfl]
    · rw [if_neg fun hc => hin (mod_add_left_inj bs.length (sA - r0.startAddress) i n
        (by omega) (by omega) hc)]
      exact ih (by omega) i (by omega)

/-- C10 (corrected): provided the payload is non-empty, of bytes, and no
    longer than the constructed capacity endAddress - startAddress + 1,
    ROM.load at sA (at or above the base) sets actualSize to the payload
    length, read(sA + i) returns payload byte i, reads are periodic in
    the payload length over the window at or above the base, and in the
    NES wiring (PRG region 0x4020..0xffff, 16 KiB payload loaded at
    0x8000) the image repeats at 0xc000..0xffff so the reset vector read
    at 0xfffc returns payload byte 0x3ffc.  (Without the capacity bound
    the claim fails: writes beyond the backing Uint8Array are dropped;
    see the counterexample.) -/
theorem rom_load_read_spec (S E sA : Nat) (bs : List Nat)
    (hs : S ≤ sA) (hne : 0 < bs.length) (hcap : bs.length ≤ E - S + 1)
    (hb : ∀ b ∈ bs, b < 256) :
    (romLoad (romNew S E) sA bs).actualSize = bs.length ∧
    (∀ i, i < bs.length → romRead (romLoad (romNew S E) sA bs) (sA + i) = bs.getD i 0) ∧
    (∀ a, S ≤ a → romRead (romLoad (romNew S E) sA bs) (a + bs.length)
        = romRead (romLoad (romNew S E) sA bs) a) ∧
    (S = 0x4020 → E = 0xffff → sA = 0x8000 → bs.length = 16384 →
      romRead (romLoad (romNew S E) sA bs) 0xfffc = bs.getD 0x3ffc 0 ∧
      ∀ i, i < 16384 → romRead (romLoad (romNew S E) sA bs) (0xc000 + i)
          = romRead (romLoad (romNew S E) sA bs) (0x8000 + i)) := by
  have hres : romLoad (romNew S E) sA bs
      = (List.range bs.length).foldl
          (fun acc k => romSetByte acc (sA + k) (bs.getD k 0))
          { romNew S E with actualSize := bs.length } := rfl
  obtain ⟨f1, f2, f3⟩ := romLoadLoop_fields sA bs { romNew S E with actualSize := bs.length }
    bs.length
  have hr0S : ({ romNew S E with actualSize := bs.length } : ROMState).startAddress = S := rfl
  have hr0sz : ({ romNew S E with actualSize := bs.length } : ROMState).bytes.size
      = E - S + 1 := rfl
  rw [hr0S] at f1
  rw [hr0sz] at f3
  have hget := romLoadLoop_get { romNew S E with actualSize := bs.length } sA bs rfl
    (by rw [hr0sz]; exact hcap) (by rw [hr0S]; exact hs) bs.length (le_refl _)
  rw [hr0S] at hget
  have hread : ∀ i, i < bs.length →
      romRead (romLoad (romNew S E) sA bs) (sA + i) = bs.getD i 0 := by
    intro i hilt
    rw [romRead_eq, hres, f1, f2]
    have hr2 : ({ romNew S E with actualSize := bs.length } : ROMState).actualSize
        = bs.length := rfl
    rw [hr2]
    have hidx : sA + i - S = sA - S + i := by omega
    rw [hidx]
    have hb1 : (sA - S + i) % bs.length < bs.length := Nat.mod_lt _ (by omega)
    rw [u8get_eq, if_pos (by rw [f3]; omega)]
    show jsAnd255 (some _) = _
    show 0xff &&& _ = _
    rw [hget i hilt, and255_left_eq_mod, Nat.mod_mod_of_dvd _ (dvd_refl 256)]
    have hmem : bs.getD i 0 ∈ bs := by
      rw [List.getD_eq_getElem bs 0 hilt]
      exact List.getElem_mem hilt
    exact Nat.mod_eq_of_lt (hb _ hmem)
  have hper : ∀ a, S ≤ a →
      romRead (romLoad (romNew S E) sA bs) (a + bs.length)
        = romRead (romLoad (romNew S E) sA bs) a := by
    intro a ha
    rw [romRead_eq, romRead_eq, hres, f1, f2]
    have hr2 : ({ romNew S E with actualSize := bs.length } : ROMState).actualSize
        = bs.length := rfl
    rw [hr2]
    have hidx : a + bs.length - S = (a - S) + bs.length := by omega
    rw [hidx, Nat.add_mod_right]
  have hsize2 : (romLoad (romNew S E) sA bs).actualSize = bs.length := by
    rw [hres, f2]
  refine ⟨hsize2, hread, hper, ?_⟩
  intro hS hE hsA hlen
  subst hS; subst hE; subst hsA
  constructor
  · have h1 := hper 0xbffc (by norm_num)
    rw [hlen] at h1
    have h2 := hread 0x3ffc (by omega)
    rw [show (0xbffc : Nat) + 16384 = 0xfffc from by norm_num] at h1
    rw [show (0x8000 : Nat) + 0x3ffc = 0xbffc from by norm_num] at h2
    exact h1.trans h2
  · intro i hilt
    have h1 := hper (0x8000 + i) (by omega)
    rw [hlen] at h1
    rw [show (0x8000 : Nat) + i + 16384 = 0xc000 + i from by omega] at h1
    exact h1

/-- Witness for the corrected C10 theorem on a small ROM (base 0,
    capacity 8) loaded with three bytes at address 2. -/
theorem rom_load_read_spec_witness :
    (romLoad (romNew 0 7) 2 [9, 8, 7]).actualSize = 3 ∧
    romRead (romLoad (romNew 0 7) 2 [9, 8, 7]) (2 + 1) = 8 ∧
    romRead (romLoad (romNew 0 7) 2 [9, 8, 7]) (4 + 3) = romRead (romLoad (romNew 0 7) 2 [9, 8, 7]) 4 := by
  have h := rom_load_read_spec 0 7 2 [9, 8, 7] (by norm_num) (by norm_num) (by norm_num)
    (by decide)
  exact ⟨h.1.trans (by decide), (h.2.1 1 (by norm_num)).trans (by decide),
    by
      have h3 := h.2.2.1 4 (by norm_num)
      rw [show ([9, 8, 7] : List Nat).length = 3 from rfl] at h3
      exact h3⟩

/-- C10 counterexample: loading the two-byte payload into a ROM
    constructed with capacity one sets actualSize to 2, but the second
    byte's write lands outside the backing Uint8Array and is dropped, so
    read(startAddress + 1) returns 0 and not payload byte 7: the claim
    fails without a bound relating the payload to the constructed
    capacity. -/
theorem rom_load_overflow_drops_bytes :
    (romLoad (romNew 0 0) 0 [5, 7]).actualSize = 2 ∧
    romRead (romLoad (romNew 0 0) 0 [5, 7]) (0 + 0) = 5 ∧
    romRead (romLoad (romNew 0 0) 0 [5, 7]) (0 + 1) = 0 ∧
    romRead (romLoad (romNew 0 0) 0 [5, 7]) (0 + 1) ≠ [5, 7].getD 1 0 := by
  exact ⟨by decide, by decide, by decide, by decide⟩

end FamiJS
